import Mathlib

/-!
Verification of the seven-segment display sketch (digital thermometer and
clock on HC595 shift registers with a DS18B20 sensor).  The definitions
below are a shallow embedding of the C source: the glyph constants, the
segment encoder `LC4LEDDisplayMemWrite`, the per-second TIMER1 clock tick,
the clock-adjustment state machine (`clockAdjust` and the SETUP-button
handling of `loop`/`clockSetup`), and the debounced button reader
(`readClockButtons`).  Array writes are modelled on memory `Int → Nat`
together with an explicit trace of written indices, so that both the
produced buffer contents and the in-bounds behaviour of every write can be
stated.  Machine bytes are modelled as `Nat` with `% 256` where the source
increments a `byte`.
-/

/-! ### Glyph constants (active-low segment bitmasks, from the source defines) -/

def ZERO : Nat := 0x03
def ONE : Nat := 0x9F
def TWO : Nat := 0x25
def THREE : Nat := 0x0D
def FOUR : Nat := 0x99
def FIVE : Nat := 0x49
def SIX : Nat := 0x41
def SEVEN : Nat := 0x1F
def EIGHT : Nat := 0x01
def NINE : Nat := 0x09
def MINUS : Nat := 0xFD
def BLANK : Nat := 0xFF
def DEGREE : Nat := 0x39
def ACHAR : Nat := 0x11
def BCHAR : Nat := 0xC1
def CCHAR : Nat := 0x63
def DCHAR : Nat := 0x85
def ECHAR : Nat := 0x61
def FCHAR : Nat := 0x71
def HCHARSMALL : Nat := 0xD1
def HCHARBIG : Nat := 0x91
def JCHAR : Nat := 0x07
def LCHAR : Nat := 0xE3
def NCHAR : Nat := 0xD5
def OCHAR : Nat := 0xC5
def PCHAR : Nat := 0x31
def RCHAR : Nat := 0xF5
def TCHAR : Nat := 0xE1
def UCHARSMALL : Nat := 0xC7
def UCHARBIG : Nat := 0x83
def YCHAR : Nat := 0x89
def QUESTION : Nat := 0x35
def DP : Nat := 0xFE

/-- The glyph lookup of the encoder's `switch`: every non-dot case of the
`switch(digits[i])` statement in `LC4LEDDisplayMemWrite`.  `'.'` is handled
separately by the encoder (it is a modifier, not a glyph) and unsupported
characters fall to the `default:` arm, modelled by `none`. -/
def glyphFor : Char → Option Nat
  | '0' => some ZERO
  | '1' => some ONE
  | '2' => some TWO
  | '3' => some THREE
  | '4' => some FOUR
  | '5' => some FIVE
  | '6' => some SIX
  | '7' => some SEVEN
  | '8' => some EIGHT
  | '9' => some NINE
  | '-' => some MINUS
  | ' ' => some BLANK
  | 'g' => some DEGREE
  | 'A' => some ACHAR
  | 'b' => some BCHAR
  | 'C' => some CCHAR
  | 'd' => some DCHAR
  | 'E' => some ECHAR
  | 'F' => some FCHAR
  | 'h' => some HCHARSMALL
  | 'H' => some HCHARBIG
  | 'J' => some JCHAR
  | 'L' => some LCHAR
  | 'n' => some NCHAR
  | 'o' => some OCHAR
  | 'P' => some PCHAR
  | 'r' => some RCHAR
  | 't' => some TCHAR
  | 'u' => some UCHARSMALL
  | 'U' => some UCHARBIG
  | 'Y' => some YCHAR
  | _ => none

/-! ### The segment encoder `LC4LEDDisplayMemWrite` -/

/-- Pointwise update of a memory, modelling a single C array store
`a[i] = v` (the array base being address 0). -/
def memUpd (m : Int → Nat) (i : Int) (v : Nat) : Int → Nat :=
  fun j => if j = i then v else m j

/-- State of the encoding loop of `LC4LEDDisplayMemWrite`: the `displayBuf`
memory, the trace of `displayBuf` indices written so far, the local
`bufIndex`, and the local `error` flag. -/
structure EncSt where
  mem : Int → Nat
  writes : List Int
  bufIndex : Int
  error : Bool

/-- The encoding `for` loop of `LC4LEDDisplayMemWrite` (source lines
584-691).  Each glyph case performs `displayBuf[bufIndex++] = G`; the `'.'`
case performs `displayBuf[bufIndex - 1] &= DP`; the `default:` case sets
`error` and lets the loop continue; the `bufIndex > 3` guard on a non-dot
character sets `error` and jumps out of the loop (`goto error`). -/
def encodeLoop : List Char → EncSt → EncSt
  | [], s => s
  | c :: rest, s =>
    if 3 < s.bufIndex ∧ c ≠ '.' then
      { s with error := true }
    else if c = '.' then
      encodeLoop rest
        { mem := memUpd s.mem (s.bufIndex - 1) (Nat.land (s.mem (s.bufIndex - 1)) DP),
          writes := s.writes ++ [s.bufIndex - 1],
          bufIndex := s.bufIndex,
          error := s.error }
    else
      match glyphFor c with
      | some g =>
          encodeLoop rest
            { mem := memUpd s.mem s.bufIndex g,
              writes := s.writes ++ [s.bufIndex],
              bufIndex := s.bufIndex + 1,
              error := s.error }
      | none => encodeLoop rest { s with error := true }

/-- The `dotsPos` scan of `LC4LEDDisplayMemWrite` (source lines 560-564):
the positions `i` with `digits[i] == '.'`, in order.  In the source the
`k`-th element of this list is stored into `dotsPos[k]`. -/
def dotPositionsAux : List Char → Nat → List Nat
  | [], _ => []
  | c :: rest, i =>
    if c = '.' then i :: dotPositionsAux rest (i + 1) else dotPositionsAux rest (i + 1)

/-- The adjacency check of `LC4LEDDisplayMemWrite` (source lines 577-582):
`dotsPos[i] == dotsPos[i-1] + 1` for some `i` in `1..dots-1`. -/
def hasAdjacent : List Nat → Bool
  | a :: b :: rest => (b == a + 1) || hasAdjacent (b :: rest)
  | _ => false

/-- Indices of `dotsPos` written by the scan loop: `dotsPos[dots++] = i`
writes indices `0, 1, ..., dots - 1` (the array itself has room for 4). -/
def dotsWriteTrace (digits : List Char) : List Int :=
  (List.range (dotPositionsAux digits 0).length).map (fun k => (k : Int))

/-- Result of a full `LC4LEDDisplayMemWrite` call: final `displayBuf`
memory, trace of `displayBuf` indices written, trace of `dotsPos` indices
written, and the final value of the `error` flag. -/
structure EncResult where
  mem : Int → Nat
  writes : List Int
  dotsWrites : List Int
  error : Bool

/-- The `error:` label of `LC4LEDDisplayMemWrite` (source lines 692-700):
when `error` is set, the fixed pattern `DP`, `QUESTION & DP`, `QUESTION`,
`BLANK` is stored into `displayBuf[0..3]`. -/
def finish (m : Int → Nat) (w dw : List Int) (err : Bool) : EncResult :=
  if err then
    { mem := memUpd (memUpd (memUpd (memUpd m 0 DP) 1 (Nat.land QUESTION DP)) 2 QUESTION) 3 BLANK,
      writes := w ++ [0, 1, 2, 3],
      dotsWrites := dw,
      error := true }
  else
    { mem := m, writes := w, dotsWrites := dw, error := false }

/-- `LC4LEDDisplayMemWrite` (source lines 546-700).  `digits` is the list
of characters of the NUL-terminated input string; `mem0` is the initial
content of the `displayBuf` memory.  The validation checks appear in
source order: length between 4 and 8, exactly 4 non-dot characters
(`len - dots != 4`), no leading dot (`dotsPos[0] == 0`), no adjacent dots;
note the `dotsPos` scan runs before the count check. -/
def LC4LEDDisplayMemWrite (digits : List Char) (mem0 : Int → Nat) : EncResult :=
  if 8 < digits.length ∨ digits.length < 4 then
    finish mem0 [] [] true
  else if digits.length - (dotPositionsAux digits 0).length ≠ 4 then
    finish mem0 [] (dotsWriteTrace digits) true
  else if 0 < (dotPositionsAux digits 0).length ∧ (dotPositionsAux digits 0).headD 99 = 0 then
    finish mem0 [] (dotsWriteTrace digits) true
  else if hasAdjacent (dotPositionsAux digits 0) = true then
    finish mem0 [] (dotsWriteTrace digits) true
  else
    finish (encodeLoop digits ⟨mem0, [], 0, false⟩).mem
      (encodeLoop digits ⟨mem0, [], 0, false⟩).writes
      (dotsWriteTrace digits)
      (encodeLoop digits ⟨mem0, [], 0, false⟩).error

/-- The conjunction of the encoder's validation rules, exactly as checked
by `LC4LEDDisplayMemWrite`: length within 4..8, exactly 4 non-dot
characters, no leading dot, no two adjacent dots, and every character
either a dot or in the supported glyph set. -/
def validInput (digits : List Char) : Prop :=
  ¬ (8 < digits.length ∨ digits.length < 4) ∧
  digits.length - (dotPositionsAux digits 0).length = 4 ∧
  ¬ (0 < (dotPositionsAux digits 0).length ∧ (dotPositionsAux digits 0).headD 99 = 0) ∧
  hasAdjacent (dotPositionsAux digits 0) = false ∧
  ∀ c ∈ digits, c = '.' ∨ (glyphFor c).isSome = true

instance (digits : List Char) : Decidable (validInput digits) := by
  unfold validInput
  infer_instance

/-- Number of non-dot characters of the input (the quantity the source
compares via `len - dots`). -/
def nonDotCount : List Char → Nat
  | [] => 0
  | c :: rest => (if c = '.' then 0 else 1) + nonDotCount rest

/-- First character is not a dot (trivially true for the empty string). -/
def headNotDot : List Char → Prop
  | [] => True
  | c :: _ => c ≠ '.'

/-- Replace the last element of a list (helper for the spec-side encoder). -/
def setLast : List Nat → Nat → List Nat
  | [], _ => []
  | [_], v => [v]
  | x :: y :: rest, v => x :: setLast (y :: rest) v

/-- Modelled from the spec's words (for the refinement claims about the
encoding): iterate the input left to right; each non-dot character maps
via the fixed lookup table to its segment bitmask and is appended to the
output buffer; each `'.'` bitwise-ANDs the `DP` bit into the most recently
appended output byte. -/
def encodeSpec : List Char → List Nat → List Nat
  | [], acc => acc
  | c :: rest, acc =>
    if c = '.' then
      encodeSpec rest (setLast acc (Nat.land (acc.getD (acc.length - 1) 0) DP))
    else
      encodeSpec rest (acc ++ [(glyphFor c).getD 0])

/-- All-zero initial display memory, used for concrete evaluations. -/
def zeroMem : Int → Nat := fun _ => 0

/-- The ten digit characters. -/
def digitChars : List Char := ['0', '1', '2', '3', '4', '5', '6', '7', '8', '9']

/-! ### Clock data and the TIMER1 tick -/

/-- The live clock array `clock[5]`: tens of hours, units of hours, tens of
minutes, units of minutes, seconds. -/
structure Clock5 where
  h10 : Nat
  h1 : Nat
  m10 : Nat
  m1 : Nat
  sec : Nat
deriving DecidableEq

/-- The shadow clock array `tmpClock[4]` used during adjustment. -/
structure Clock4 where
  h10 : Nat
  h1 : Nat
  m10 : Nat
  m1 : Nat
deriving DecidableEq

/-- The time-update part of `ISR(TIMER1_COMPA_vect)` (source lines
438-471): increment seconds; on reaching 60 cascade through minute units,
minute tens, hour units and hour tens, with the hour wrap condition
`(clock[0] < 2 && clock[1] == 10) || (clock[0] == 2 && clock[1] == 4)`
and the final `clock[0] == 3` wrap.  Byte increments are taken `% 256`. -/
def tick (c : Clock5) : Clock5 :=
  let s := (c.sec + 1) % 256
  if s = 60 then
    let m1a := (c.m1 + 1) % 256
    let m1b := if m1a = 10 then 0 else m1a
    let m10a := if m1a = 10 then (c.m10 + 1) % 256 else c.m10
    let m10b := if m10a = 6 then 0 else m10a
    let h1a := if m10a = 6 then (c.h1 + 1) % 256 else c.h1
    let h1b := if (c.h10 < 2 ∧ h1a = 10) ∨ (c.h10 = 2 ∧ h1a = 4) then 0 else h1a
    let h10a := if (c.h10 < 2 ∧ h1a = 10) ∨ (c.h10 = 2 ∧ h1a = 4) then (c.h10 + 1) % 256 else c.h10
    let h10b := if h10a = 3 then 0 else h10a
    ⟨h10b, h1b, m10b, m1b, 0⟩
  else
    ⟨c.h10, c.h1, c.m10, c.m1, s⟩

/-! ### Clock adjustment state machine -/

/-- `clockAdjust` (source lines 399-436), projected to its effect on
`tmpClock`: in each editing state the corresponding field is incremented
and wrapped.  Tens of hours wrap at 3; units of hours wrap jointly with
the tens (`(tmpClock[0] < 2 && tmpClock[1] >= 10) || (tmpClock[0] == 2 &&
tmpClock[1] >= 4)`); tens of minutes wrap at 6; units of minutes wrap at
10.  The accompanying `timeString`/display writes do not feed back into
the clock state and are projected away. -/
def clockAdjust (setupmode : Nat) (t : Clock4) : Clock4 :=
  if setupmode = 1 then
    let v := (t.h10 + 1) % 256
    { t with h10 := if 3 ≤ v then 0 else v }
  else if setupmode = 2 then
    let v := (t.h1 + 1) % 256
    { t with h1 := if (t.h10 < 2 ∧ 10 ≤ v) ∨ (t.h10 = 2 ∧ 4 ≤ v) then 0 else v }
  else if setupmode = 3 then
    let v := (t.m10 + 1) % 256
    { t with m10 := if 6 ≤ v then 0 else v }
  else if setupmode = 4 then
    let v := (t.m1 + 1) % 256
    { t with m1 := if 10 ≤ v then 0 else v }
  else
    t

/-- State of the clock-adjustment machinery: `setupMode`, the live
`clock`, and the shadow `tmpClock`. -/
structure SMState where
  mode : Nat
  clock : Clock5
  tmp : Clock4
deriving DecidableEq

/-- The SETUP-button branch of `loop` (source lines 284-300) together with
the snapshot taken by `clockSetup` (source lines 375-380): `setupMode` is
incremented; past `SMUMINUTE` it returns to idle, copies `tmpClock` into
`clock[0..3]` and resets `clock[4]`; otherwise `clockSetup` runs and, when
entering `SMTHOUR`, snapshots `clock[0..3]` into `tmpClock`.  The
`displaySwitch` and `timeString` effects do not feed back into this state
and are projected away. -/
def pressSetup (s : SMState) : SMState :=
  let m := (s.mode + 1) % 256
  if 4 < m then
    { mode := 0,
      clock := ⟨s.tmp.h10, s.tmp.h1, s.tmp.m10, s.tmp.m1, 0⟩,
      tmp := s.tmp }
  else
    { mode := m,
      clock := s.clock,
      tmp := if m = 1 then ⟨s.clock.h10, s.clock.h1, s.clock.m10, s.clock.m1⟩ else s.tmp }

/-! ### Debounced button reader -/

/-- Per-button debounce state of `readClockButtons`: the previous raw
reading (`lastButtonXState`), the debounced state (`buttonXState`), and
the last-change timestamp (`lastXDebounceTime`). -/
structure BtnState where
  lastRaw : Bool
  stable : Bool
  lastDebounce : Nat
deriving DecidableEq

/-- `debounceDelay = 50` from the source. -/
def debounceDelay : Nat := 50

/-- One poll of one button, the per-button block of `readClockButtons`
(source lines 314-342 for SETUP, 346-369 for UP): if the raw reading
changed, reset the debounce timestamp; if the (possibly reset) timestamp
is more than `debounceDelay` old, adopt the reading as the debounced
state, and report a pressed event exactly when that adoption is a change
to the active (HIGH, here `true`) level.  Returns the new state and the
event flag. -/
def debounceStep (st : BtnState) (raw : Bool) (now : Nat) : BtnState × Bool :=
  let ldt := if raw = st.lastRaw then st.lastDebounce else now
  if debounceDelay < now - ldt then
    if raw = st.stable then
      (⟨raw, st.stable, ldt⟩, false)
    else
      (⟨raw, raw, ldt⟩, raw)
  else
    (⟨raw, st.stable, ldt⟩, false)

/-- Run a sequence of polls (raw reading, millis timestamp) through the
debouncer, counting pressed events. -/
def runDebounce (st : BtnState) : List (Bool × Nat) → BtnState × Nat
  | [] => (st, 0)
  | p :: rest =>
    let r := debounceStep st p.1 p.2
    let rr := runDebounce r.1 rest
    (rr.1, (if r.2 then 1 else 0) + rr.2)

/-- Combined state of the two buttons of `readClockButtons`. -/
structure ButtonsState where
  setupBtn : BtnState
  upBtn : BtnState

/-- `readClockButtons` (source lines 310-373): the SETUP button is polled
first; the UP button is polled only when SETUP reported no event.  Result
code: `0` = BNONE, `1` = BSETUP, `2` = BUP. -/
def readClockButtons (s : ButtonsState) (rawSetup rawUp : Bool) (now : Nat) :
    ButtonsState × Nat :=
  let r := debounceStep s.setupBtn rawSetup now
  if r.2 then
    (⟨r.1, s.upBtn⟩, 1)
  else
    let u := debounceStep s.upBtn rawUp now
    (⟨r.1, u.1⟩, if u.2 then 2 else 0)

/-- Raw readings that alternate on every poll relative to the previous
reading (the first poll differing from the given last raw reading). -/
def Alternating : Bool → List (Bool × Nat) → Prop
  | _, [] => True
  | r, p :: rest => p.1 ≠ r ∧ Alternating p.1 rest

/-! ### Theorems -/

/-- Claim C8: the glyph lookup is injective on the digit characters: for
every pair of distinct characters in '0'..'9', the segment bitmasks
assigned by the encoder's lookup table are distinct, so a digit's bitmask
maps back to that digit unambiguously. -/
theorem claimC8_digit_glyphs_injective :
    ∀ c ∈ digitChars, ∀ d ∈ digitChars, c ≠ d → glyphFor c ≠ glyphFor d := by
  decide

/-- Witness for claim C8 at the concrete pair '0', '1'. -/
theorem claimC8_witness : glyphFor '0' ≠ glyphFor '1' :=
  claimC8_digit_glyphs_injective '0' (by decide) '1' (by decide) (by decide)

/-- Claim C3, counterexample: from the shadow clock 19:00 (which satisfies
the 24-hour constraint, first conjunct), a single increment of the
hours-tens field (`clockAdjust` in state SMTHOUR = 1) yields joint hours
value 29, violating the claimed bound of 23. -/
theorem claimC3_cex :
    10 * 1 + 9 ≤ 23 ∧
    ¬ (10 * (clockAdjust 1 ⟨1, 9, 0, 0⟩).h10 + (clockAdjust 1 ⟨1, 9, 0, 0⟩).h1 ≤ 23) := by
  decide

/-- Claim C3 as amended: incrementing the hours-units field (SMUHOUR = 2)
from a shadow clock whose hours-tens digit is at most 2 leaves the joint
hours value at most 23 (the units wrap consults the tens digit); the
hours-tens increment (SMTHOUR = 1) only wraps the tens digit at 3, keeping
it at most 2 but without consulting the units digit; the minutes tens and
units wrap at 6 and 10. -/
theorem claimC3_amended :
    (∀ t : Clock4, (clockAdjust 1 t).h10 ≤ 2) ∧
    (∀ t : Clock4, t.h10 ≤ 2 → 10 * (clockAdjust 2 t).h10 + (clockAdjust 2 t).h1 ≤ 23) ∧
    (∀ t : Clock4, (clockAdjust 3 t).m10 ≤ 5) ∧
    (∀ t : Clock4, (clockAdjust 4 t).m1 ≤ 9) := by
  refine ⟨?_, ?_, ?_, ?_⟩ <;> intro t <;> obtain ⟨a, b, m, n⟩ := t <;>
    simp only [clockAdjust] <;> norm_num <;> split_ifs <;> omega

/-- Witness for claim C3 (amended) at the concrete shadow clock 23:00. -/
theorem claimC3_witness :
    10 * (clockAdjust 2 ⟨2, 3, 0, 0⟩).h10 + (clockAdjust 2 ⟨2, 3, 0, 0⟩).h1 ≤ 23 :=
  claimC3_amended.2.1 ⟨2, 3, 0, 0⟩ (by decide)

/-- Claim C5, counterexample: starting from Idle with the live clock at
23:59 (seconds 7), four SETUP presses do not return the machine to Idle
and do not reset the seconds: the state machine is in SMUMINUTE (mode 4)
and the live clock is untouched. -/
theorem claimC5_cex :
    ¬ ((pressSetup (pressSetup (pressSetup (pressSetup
          ⟨0, ⟨2, 3, 5, 9, 7⟩, ⟨0, 0, 0, 0⟩⟩)))).mode = 0 ∧
       (pressSetup (pressSetup (pressSetup (pressSetup
          ⟨0, ⟨2, 3, 5, 9, 7⟩, ⟨0, 0, 0, 0⟩⟩)))).clock.sec = 0) := by
  decide

/-- Claim C5 as amended: five SETUP ("next field") presses, not four, take
the machine from Idle through the four editing states back to Idle; with
no increment presses the snapshot taken on entering the first editing
state is committed back, so the live clock 23:59 is unchanged except that
the seconds field is reset to 0. -/
theorem claimC5_amended (sec : Nat) (t : Clock4) :
    pressSetup (pressSetup (pressSetup (pressSetup (pressSetup
        ⟨0, ⟨2, 3, 5, 9, sec⟩, t⟩)))) =
      ⟨0, ⟨2, 3, 5, 9, 0⟩, ⟨2, 3, 5, 9⟩⟩ :=
  rfl

/-- Claim C7: one TIMER1 tick preserves the clock bounds (hours tens at
most 2, joint hours at most 23, minute tens at most 5, units at most 9,
seconds at most 59), and 23:59:59 rolls over to 00:00:00. -/
theorem claimC7_tick_invariant :
    (∀ c : Clock5, c.h10 ≤ 2 → c.h1 ≤ 9 → 10 * c.h10 + c.h1 ≤ 23 →
      c.m10 ≤ 5 → c.m1 ≤ 9 → c.sec ≤ 59 →
      (tick c).h10 ≤ 2 ∧ (tick c).h1 ≤ 9 ∧ 10 * (tick c).h10 + (tick c).h1 ≤ 23 ∧
      (tick c).m10 ≤ 5 ∧ (tick c).m1 ≤ 9 ∧ (tick c).sec ≤ 59) ∧
    tick ⟨2, 3, 5, 9, 59⟩ = ⟨0, 0, 0, 0, 0⟩ := by
  refine ⟨?_, by decide⟩
  intro c h1 h2 h3 h4 h5 h6
  obtain ⟨a, b, m, n, s⟩ := c
  simp only [tick] at *
  split_ifs <;> simp_all <;> omega

/-- Witness for claim C7 at the concrete clock 23:59:59. -/
theorem claimC7_witness :
    (tick ⟨2, 3, 5, 9, 59⟩).h10 ≤ 2 ∧ (tick ⟨2, 3, 5, 9, 59⟩).h1 ≤ 9 ∧
    10 * (tick ⟨2, 3, 5, 9, 59⟩).h10 + (tick ⟨2, 3, 5, 9, 59⟩).h1 ≤ 23 ∧
    (tick ⟨2, 3, 5, 9, 59⟩).m10 ≤ 5 ∧ (tick ⟨2, 3, 5, 9, 59⟩).m1 ≤ 9 ∧
    (tick ⟨2, 3, 5, 9, 59⟩).sec ≤ 59 :=
  claimC7_tick_invariant.1 ⟨2, 3, 5, 9, 59⟩ (by decide) (by decide) (by decide)
    (by decide) (by decide) (by decide)

/-- Claim C4, counterexample: the encoder applied to " 12." (which has
only 3 non-dot characters) produces the fixed error pattern, not the
claimed blank/'1'/'2'-with-DP buffer. -/
theorem claimC4_cex :
    (LC4LEDDisplayMemWrite [' ', '1', '2', '.'] zeroMem).error = true ∧
    (LC4LEDDisplayMemWrite [' ', '1', '2', '.'] zeroMem).mem 0 = DP ∧
    (LC4LEDDisplayMemWrite [' ', '1', '2', '.'] zeroMem).mem 1 = Nat.land QUESTION DP ∧
    (LC4LEDDisplayMemWrite [' ', '1', '2', '.'] zeroMem).mem 2 = QUESTION ∧
    (LC4LEDDisplayMemWrite [' ', '1', '2', '.'] zeroMem).mem 3 = BLANK ∧
    ¬ ((LC4LEDDisplayMemWrite [' ', '1', '2', '.'] zeroMem).mem 0 = BLANK ∧
       (LC4LEDDisplayMemWrite [' ', '1', '2', '.'] zeroMem).mem 1 = ONE ∧
       (LC4LEDDisplayMemWrite [' ', '1', '2', '.'] zeroMem).mem 2 = Nat.land TWO DP) := by
  decide

/-- Claim C4 as amended: the input must carry exactly 4 non-dot
characters, so the dot-modifies-preceding-character example needs another
padding blank: the encoder applied to "  12." produces the buffer
blank-glyph, blank-glyph, '1'-glyph, '2'-glyph with the DP bit ANDed in,
and not the error pattern. -/
theorem claimC4_amended :
    (LC4LEDDisplayMemWrite [' ', ' ', '1', '2', '.'] zeroMem).error = false ∧
    (LC4LEDDisplayMemWrite [' ', ' ', '1', '2', '.'] zeroMem).mem 0 = BLANK ∧
    (LC4LEDDisplayMemWrite [' ', ' ', '1', '2', '.'] zeroMem).mem 1 = BLANK ∧
    (LC4LEDDisplayMemWrite [' ', ' ', '1', '2', '.'] zeroMem).mem 2 = ONE ∧
    (LC4LEDDisplayMemWrite [' ', ' ', '1', '2', '.'] zeroMem).mem 3 = Nat.land TWO DP := by
  decide

/-- Claim C10: the code violates the claimed in-bounds property.  On the
5-character input "....." (length within 4..8) the `dotsPos` scan runs
before the non-dot-count check and stores the fifth dot position into
`dotsPos[4]`, outside the 4-element array; on "z.abc" the unsupported
character 'z' sets `error` without stopping the loop, and the following
dot then performs `displayBuf[bufIndex - 1]` with `bufIndex = 0`, a write
at index -1. -/
theorem claimC10_oob_writes :
    (4 : Int) ∈ (LC4LEDDisplayMemWrite ['.', '.', '.', '.', '.'] zeroMem).dotsWrites ∧
    (-1 : Int) ∈ (LC4LEDDisplayMemWrite ['z', '.', 'a', 'b', 'c'] zeroMem).writes := by
  decide

/-- Helper: a raw reading that differs from the previous one resets the
debounce timestamp to the current time, so the elapsed-time check fails
and no event is produced. -/
theorem runDebounce_alt (polls : List (Bool × Nat)) :
    ∀ st : BtnState, Alternating st.lastRaw polls → (runDebounce st polls).2 = 0 := by
  induction polls with
  | nil => intro st _; rfl
  | cons p rest ih =>
    intro st h
    obtain ⟨b, t⟩ := p
    obtain ⟨hne, halt⟩ := h
    have hstep : debounceStep st b t = (⟨b, st.stable, t⟩, false) := by
      simp [debounceStep, if_neg hne, Nat.sub_self, debounceDelay]
    simp only [runDebounce, hstep]
    simpa using ih ⟨b, st.stable, t⟩ halt

/-- Helper: while the debounced state is already HIGH, further HIGH
readings never produce an event. -/
theorem runDebounce_held_stable (ts : List Nat) :
    ∀ st : BtnState, st.stable = true →
      (runDebounce st (ts.map (fun t => (true, t)))).2 = 0 := by
  induction ts with
  | nil => intro st _; rfl
  | cons t rest ih =>
    intro st h
    obtain ⟨lr, sb, ld⟩ := st
    subst h
    have hstep : ∃ ld2 : Nat,
        debounceStep ⟨lr, true, ld⟩ true t = (⟨true, true, ld2⟩, false) := by
      simp only [debounceStep]
      split_ifs <;> exact ⟨_, rfl⟩
    obtain ⟨ld2, hstep⟩ := hstep
    simp only [List.map_cons, runDebounce, hstep]
    simpa using ih ⟨true, true, ld2⟩ rfl

/-- Helper: from the state just after a LOW-to-HIGH transition poll at
time `t1`, a run of HIGH readings yields exactly one event when some poll
happens more than `debounceDelay` after `t1`, and none otherwise. -/
theorem runDebounce_wait (ts : List Nat) :
    ∀ t1 : Nat,
      (runDebounce ⟨true, false, t1⟩ (ts.map (fun t => (true, t)))).2 =
        if ∃ t ∈ ts, debounceDelay < t - t1 then 1 else 0 := by
  induction ts with
  | nil => intro t1; simp [runDebounce]
  | cons t rest ih =>
    intro t1
    by_cases hd : debounceDelay < t - t1
    · have hstep : debounceStep ⟨true, false, t1⟩ true t = (⟨true, true, t1⟩, true) := by
        simp [debounceStep, hd]
      simp only [List.map_cons, runDebounce, hstep]
      have hz := runDebounce_held_stable rest ⟨true, true, t1⟩ rfl
      simp [hz, hd]
    · have hstep : debounceStep ⟨true, false, t1⟩ true t = (⟨true, false, t1⟩, false) := by
        simp [debounceStep, hd]
      simp only [List.map_cons, runDebounce, hstep]
      have hiff : (∃ x ∈ t :: rest, debounceDelay < x - t1) ↔
          (∃ x ∈ rest, debounceDelay < x - t1) := by
        constructor
        · rintro ⟨x, hx, hxd⟩
          rcases List.mem_cons.mp hx with hx | hx
          · exact absurd (hx ▸ hxd) hd
          · exact ⟨x, hx, hxd⟩
        · rintro ⟨x, hx, hxd⟩
          exact ⟨x, List.mem_cons_of_mem t hx, hxd⟩
      rw [if_congr hiff rfl rfl]
      simpa using ih t1

/-- Claim C6: for a button of the debounced reader, (1) raw readings that
alternate on every poll (faster than the debounce interval can elapse)
produce zero pressed events; (2) a single clean LOW-to-HIGH transition at
time `t1`, held HIGH and polled at some time more than `debounceDelay`
after `t1`, produces exactly one pressed event; (3) once the debounced
state is HIGH, the continuing press produces no further events, so no two
pressed events are emitted for the same physical press. -/
theorem claimC6_debounce :
    (∀ (st : BtnState) (polls : List (Bool × Nat)),
        Alternating st.lastRaw polls → (runDebounce st polls).2 = 0) ∧
    (∀ (t0 t1 : Nat) (ts : List Nat), (∃ t ∈ ts, debounceDelay < t - t1) →
        (runDebounce ⟨false, false, t0⟩ ((true, t1) :: ts.map (fun t => (true, t)))).2 = 1) ∧
    (∀ (st : BtnState) (ts : List Nat), st.stable = true →
        (runDebounce st (ts.map (fun t => (true, t)))).2 = 0) := by
  refine ⟨fun st polls h => runDebounce_alt polls st h, ?_,
    fun st ts h => runDebounce_held_stable ts st h⟩
  intro t0 t1 ts hex
  have hstep : debounceStep ⟨false, false, t0⟩ true t1 = (⟨true, false, t1⟩, false) := by
    simp [debounceStep, Nat.sub_self, debounceDelay]
  simp only [runDebounce, hstep]
  have := runDebounce_wait ts t1
  simp [this, if_pos hex]

/-- Witness for claim C6: a bouncing sequence with zero events, a clean
held press with exactly one event, and a held-HIGH state with no further
events. -/
theorem claimC6_witness :
    (runDebounce ⟨false, false, 0⟩ [(true, 10), (false, 20), (true, 30)]).2 = 0 ∧
    (runDebounce ⟨false, false, 0⟩ ((true, 100) :: [120, 160].map (fun t => (true, t)))).2 = 1 ∧
    (runDebounce ⟨true, true, 0⟩ ([200, 300].map (fun t => (true, t)))).2 = 0 :=
  ⟨claimC6_debounce.1 ⟨false, false, 0⟩ _ (by simp [Alternating]),
   claimC6_debounce.2.1 0 100 [120, 160] ⟨160, by simp, by decide⟩,
   claimC6_debounce.2.2 ⟨true, true, 0⟩ [200, 300] rfl⟩

/-- Helper: `getD` on an append, index inside the first list. -/
theorem getD_append_lt (l1 l2 : List Nat) :
    ∀ i : Nat, i < l1.length → (l1 ++ l2).getD i 0 = l1.getD i 0 := by
  induction l1 with
  | nil => intro i h; simp at h
  | cons x xs ih =>
    intro i h
    cases i with
    | zero => simp
    | succ n =>
      simp only [List.cons_append, List.getD_cons_succ]
      exact ih n (by simpa using h)

/-- Helper: `getD` of a singleton append at the length of the prefix. -/
theorem getD_append_len (l1 : List Nat) (x : Nat) : (l1 ++ [x]).getD l1.length 0 = x := by
  induction l1 with
  | nil => rfl
  | cons y ys ih => simp [ih]

/-- Helper: `setLast` preserves the length. -/
theorem setLast_length (l : List Nat) (v : Nat) : (setLast l v).length = l.length := by
  induction l with
  | nil => rfl
  | cons x xs ih =>
    cases xs with
    | nil => rfl
    | cons y ys => simpa [setLast] using ih

/-- Helper: `setLast` keeps all entries before the last one. -/
theorem setLast_getD_lt (l : List Nat) (v : Nat) :
    ∀ i : Nat, i + 1 < l.length → (setLast l v).getD i 0 = l.getD i 0 := by
  induction l with
  | nil => intro i h; simp at h
  | cons x xs ih =>
    cases xs with
    | nil => intro i h; simp at h
    | cons y ys =>
      intro i h
      cases i with
      | zero => rfl
      | succ n =>
        simp only [setLast, List.getD_cons_succ]
        exact ih n (by simpa using h)

/-- Helper: `setLast` stores the given value at the last position. -/
theorem setLast_getD_last (l : List Nat) (v : Nat) (h : l ≠ []) :
    (setLast l v).getD (l.length - 1) 0 = v := by
  induction l with
  | nil => exact absurd rfl h
  | cons x xs ih =>
    cases xs with
    | nil => rfl
    | cons y ys =>
      have hone : (x :: y :: ys : List Nat).length - 1 = ys.length + 1 := by simp
      simp only [setLast, hone, List.getD_cons_succ]
      have h2 := ih (by simp)
      simpa using h2

/-- Helper: dots and non-dots partition the input length. -/
theorem nonDot_add_dots (l : List Char) :
    ∀ i : Nat, nonDotCount l + (dotPositionsAux l i).length = l.length := by
  induction l with
  | nil => intro i; rfl
  | cons c rest ih =>
    intro i
    by_cases hc : c = '.'
    · have := ih (i + 1)
      simp only [nonDotCount, dotPositionsAux, if_pos hc, List.length_cons]
      omega
    · have := ih (i + 1)
      simp only [nonDotCount, dotPositionsAux, if_neg hc, List.length_cons]
      omega

/-- Helper: if the leading-dot check passes, the first character is not a
dot. -/
theorem headNotDot_of_checks (digits : List Char)
    (h3 : ¬ (0 < (dotPositionsAux digits 0).length ∧ (dotPositionsAux digits 0).headD 99 = 0)) :
    headNotDot digits := by
  cases digits with
  | nil => trivial
  | cons c rest =>
    by_cases hc : c = '.'
    · exact absurd (by simp [dotPositionsAux, hc]) h3
    · exact hc

/-- Helper: the encoding loop never clears the `error` flag. -/
theorem encodeLoop_err (cs : List Char) :
    ∀ s : EncSt, s.error = true → (encodeLoop cs s).error = true := by
  induction cs with
  | nil => intro s h; exact h
  | cons c rest ih =>
    intro s h
    simp only [encodeLoop]
    split_ifs with h1 h2
    · rfl
    · exact ih _ h
    · cases hg : glyphFor c with
      | some g => exact ih _ h
      | none => exact ih _ rfl

/-- Helper: a non-dot character outside the glyph set forces the `error`
flag at the end of the encoding loop. -/
theorem encodeLoop_bad (cs : List Char) :
    ∀ s : EncSt, (∃ c ∈ cs, ¬ c = '.' ∧ glyphFor c = none) →
      (encodeLoop cs s).error = true := by
  induction cs with
  | nil => intro s h; simp at h
  | cons c rest ih =>
    intro s h
    obtain ⟨c0, hmem, hdot, hnone⟩ := h
    simp only [encodeLoop]
    split_ifs with h1 h2
    · rfl
    · rcases List.mem_cons.mp hmem with rfl | hmem2
      · exact absurd h2 hdot
      · exact ih _ ⟨c0, hmem2, hdot, hnone⟩
    · rcases List.mem_cons.mp hmem with rfl | hmem2
      · rw [hnone]
        exact encodeLoop_err rest _ rfl
      · cases hg : glyphFor c with
        | some g => exact ih _ ⟨c0, hmem2, hdot, hnone⟩
        | none => exact encodeLoop_err rest _ rfl

/-- Helper: with `error` set, the `error:` label writes the fixed pattern
into positions 0 to 3. -/
theorem finish_err_mem (m : Int → Nat) (w dw : List Int) :
    (finish m w dw true).mem 0 = DP ∧
    (finish m w dw true).mem 1 = Nat.land QUESTION DP ∧
    (finish m w dw true).mem 2 = QUESTION ∧
    (finish m w dw true).mem 3 = BLANK := by
  refine ⟨?_, ?_, ?_, ?_⟩ <;> norm_num [finish, memUpd]

/-- Helper: main invariant of the encoding loop on supported input: with
`acc` the bytes appended so far (and `bufIndex` equal to its length), the
loop raises no error and its memory agrees with the spec-side encoding
`encodeSpec`. -/
theorem encodeLoop_ok (cs : List Char) :
    ∀ (acc : List Nat) (m : Int → Nat) (w : List Int),
      (∀ c ∈ cs, c = '.' ∨ (glyphFor c).isSome = true) →
      acc.length + nonDotCount cs ≤ 4 →
      (1 ≤ acc.length ∨ headNotDot cs) →
      (∀ i : Nat, i < acc.length → m (i : Int) = acc.getD i 0) →
      (encodeLoop cs ⟨m, w, (acc.length : Int), false⟩).error = false ∧
      (encodeSpec cs acc).length = acc.length + nonDotCount cs ∧
      ∀ i : Nat, i < (encodeSpec cs acc).length →
        (encodeLoop cs ⟨m, w, (acc.length : Int), false⟩).mem (i : Int) =
          (encodeSpec cs acc).getD i 0 := by
  induction cs with
  | nil =>
    intro acc m w _ _ _ hmem
    refine ⟨rfl, by simp [encodeSpec, nonDotCount], ?_⟩
    intro i hi
    simp only [encodeSpec] at hi ⊢
    exact hmem i hi
  | cons c rest ih =>
    intro acc m w hsupp hcnt hpos hmem
    by_cases hc : c = '.'
    · subst hc
      have hlen : 1 ≤ acc.length := by
        rcases hpos with h | h
        · exact h
        · exact absurd rfl h
      have hnnil : acc ≠ [] := List.ne_nil_of_length_pos hlen
      have hcast : ((acc.length : Int) - 1) = ((acc.length - 1 : Nat) : Int) := by omega
      have hmlast : m ((acc.length : Int) - 1) = acc.getD (acc.length - 1) 0 := by
        rw [hcast]
        exact hmem _ (by omega)
      have hstep : encodeLoop ('.' :: rest) ⟨m, w, (acc.length : Int), false⟩ =
          encodeLoop rest
            ⟨memUpd m ((acc.length : Int) - 1) (Nat.land (acc.getD (acc.length - 1) 0) DP),
             w ++ [(acc.length : Int) - 1], (acc.length : Int), false⟩ := by
        simp [encodeLoop, hmlast]
      have hspec : encodeSpec ('.' :: rest) acc =
          encodeSpec rest (setLast acc (Nat.land (acc.getD (acc.length - 1) 0) DP)) := by
        simp [encodeSpec]
      have hlen1 : (setLast acc (Nat.land (acc.getD (acc.length - 1) 0) DP)).length = acc.length :=
        setLast_length _ _
      have hmem1 : ∀ i : Nat,
          i < (setLast acc (Nat.land (acc.getD (acc.length - 1) 0) DP)).length →
          (memUpd m ((acc.length : Int) - 1) (Nat.land (acc.getD (acc.length - 1) 0) DP))
              (i : Int) =
            (setLast acc (Nat.land (acc.getD (acc.length - 1) 0) DP)).getD i 0 := by
        intro i hi
        rw [hlen1] at hi
        by_cases hieq : i = acc.length - 1
        · subst hieq
          have hpc : ((acc.length - 1 : Nat) : Int) = (acc.length : Int) - 1 := hcast.symm
          simp only [memUpd, if_pos hpc]
          exact (setLast_getD_last acc _ hnnil).symm
        · have hne : ((i : Nat) : Int) ≠ (acc.length : Int) - 1 := by omega
          simp only [memUpd, if_neg hne]
          rw [hmem i hi]
          exact (setLast_getD_lt acc _ i (by omega)).symm
      have hmain := ih (setLast acc (Nat.land (acc.getD (acc.length - 1) 0) DP))
        (memUpd m ((acc.length : Int) - 1) (Nat.land (acc.getD (acc.length - 1) 0) DP))
        (w ++ [(acc.length : Int) - 1])
        (fun x hx => hsupp x (List.mem_cons_of_mem _ hx))
        (by rw [hlen1]; simpa [nonDotCount] using hcnt)
        (Or.inl (by rw [hlen1]; omega))
        hmem1
      rw [hlen1] at hmain
      refine ⟨?_, ?_, ?_⟩
      · rw [hstep]
        exact hmain.1
      · rw [hspec, hmain.2.1]
        simp [nonDotCount]
      · intro i hi
        rw [hspec] at hi ⊢
        rw [hstep]
        exact hmain.2.2 i hi
    · have hg : ∃ g, glyphFor c = some g := by
        rcases hsupp c (List.mem_cons_self c rest) with h | h
        · exact absurd h hc
        · exact Option.isSome_iff_exists.mp h
      obtain ⟨g, hg⟩ := hg
      have hcnt2 : acc.length + (1 + nonDotCount rest) ≤ 4 := by
        simpa [nonDotCount, hc] using hcnt
      have hle3 : acc.length ≤ 3 := by omega
      have hb : ¬ (3 < (acc.length : Int)) := by omega
      have hstep : encodeLoop (c :: rest) ⟨m, w, (acc.length : Int), false⟩ =
          encodeLoop rest
            ⟨memUpd m (acc.length : Int) g, w ++ [(acc.length : Int)],
             (acc.length : Int) + 1, false⟩ := by
        simp [encodeLoop, hg, hc, hb]
      have hspec : encodeSpec (c :: rest) acc = encodeSpec rest (acc ++ [g]) := by
        simp [encodeSpec, hc, hg]
      have hlen1 : (acc ++ [g]).length = acc.length + 1 := by simp
      have hmem1 : ∀ i : Nat, i < (acc ++ [g]).length →
          (memUpd m (acc.length : Int) g) (i : Int) = (acc ++ [g]).getD i 0 := by
        intro i hi
        rw [hlen1] at hi
        by_cases hieq : i = acc.length
        · subst hieq
          simp only [memUpd, if_pos rfl]
          exact (getD_append_len acc g).symm
        · have hne : ((i : Nat) : Int) ≠ (acc.length : Int) := by omega
          simp only [memUpd, if_neg hne]
          rw [hmem i (by omega)]
          exact (getD_append_lt acc [g] i (by omega)).symm
      have hmain := ih (acc ++ [g]) (memUpd m (acc.length : Int) g) (w ++ [(acc.length : Int)])
        (fun x hx => hsupp x (List.mem_cons_of_mem _ hx))
        (by rw [hlen1]; omega)
        (Or.inl (by rw [hlen1]; omega))
        hmem1
      rw [hlen1] at hmain
      have hca : ((acc.length + 1 : Nat) : Int) = (acc.length : Int) + 1 := by omega
      rw [hca] at hmain
      refine ⟨?_, ?_, ?_⟩
      · rw [hstep]
        exact hmain.1
      · rw [hspec, hmain.2.1]
        simp only [nonDotCount, if_neg hc]
        omega
      · intro i hi
        rw [hspec] at hi ⊢
        rw [hstep]
        exact hmain.2.2 i hi

/-- Helper: on validated input, the full encoder call raises no error and
its buffer agrees with the spec-side encoding (which has exactly 4
bytes). -/
theorem LC4_valid_eval (digits : List Char) (mem0 : Int → Nat) (h : validInput digits) :
    (LC4LEDDisplayMemWrite digits mem0).error = false ∧
    (encodeSpec digits []).length = 4 ∧
    ∀ i : Nat, i < 4 →
      (LC4LEDDisplayMemWrite digits mem0).mem (i : Int) = (encodeSpec digits []).getD i 0 := by
  obtain ⟨h1, h2, h3, h4, h5⟩ := h
  have hdots := nonDot_add_dots digits 0
  have hcount : nonDotCount digits = 4 := by omega
  have hok := encodeLoop_ok digits [] mem0 [] h5
    (by simp [hcount])
    (Or.inr (headNotDot_of_checks digits h3))
    (by intro i hi; simp at hi)
  simp only [List.length_nil, Nat.cast_zero, Nat.zero_add] at hok
  have hlen4 : (encodeSpec digits []).length = 4 := by
    rw [hok.2.1]
    simpa using hcount
  unfold LC4LEDDisplayMemWrite
  rw [if_neg h1, if_neg (not_not_intro h2), if_neg h3, if_neg (by simp [h4]), hok.1]
  refine ⟨by simp [finish], hlen4, ?_⟩
  intro i hi
  have := hok.2.2 i (by omega)
  simpa [finish] using this

/-- Claim C1: for every input string violating at least one of the
encoder's validation rules (length outside 4..8, non-dot count different
from 4 — in particular more than 4 non-dot characters —, leading dot,
adjacent dots, or a character outside the supported glyph set),
`LC4LEDDisplayMemWrite` writes exactly the fixed error pattern into all 4
positions of the output buffer: `DP`, `QUESTION & DP`, `QUESTION`,
`BLANK`. -/
theorem claimC1_invalid_error_pattern (digits : List Char) (mem0 : Int → Nat)
    (h : ¬ validInput digits) :
    (LC4LEDDisplayMemWrite digits mem0).mem 0 = DP ∧
    (LC4LEDDisplayMemWrite digits mem0).mem 1 = Nat.land QUESTION DP ∧
    (LC4LEDDisplayMemWrite digits mem0).mem 2 = QUESTION ∧
    (LC4LEDDisplayMemWrite digits mem0).mem 3 = BLANK := by
  unfold LC4LEDDisplayMemWrite
  split_ifs with h1 h2 h3 h4
  · exact finish_err_mem mem0 [] []
  · exact finish_err_mem mem0 [] (dotsWriteTrace digits)
  · exact finish_err_mem mem0 [] (dotsWriteTrace digits)
  · exact finish_err_mem mem0 [] (dotsWriteTrace digits)
  · have h4f : hasAdjacent (dotPositionsAux digits 0) = false := by
      cases hh : hasAdjacent (dotPositionsAux digits 0)
      · rfl
      · exact absurd hh h4
    have hbad : ∃ c ∈ digits, ¬ c = '.' ∧ glyphFor c = none := by
      by_contra hall
      push_neg at hall
      apply h
      refine ⟨h1, not_not.mp h2, h3, h4f, ?_⟩
      intro c hcmem
      by_cases hcd : c = '.'
      · exact Or.inl hcd
      · exact Or.inr (Option.isSome_iff_ne_none.mpr (hall c hcmem hcd))
    have herr : (encodeLoop digits ⟨mem0, [], 0, false⟩).error = true :=
      encodeLoop_bad digits _ hbad
    rw [herr]
    exact finish_err_mem _ _ _

/-- Witness for claim C1 at the too-short input "123". -/
theorem claimC1_witness :
    ¬ validInput ['1', '2', '3'] ∧
    ((LC4LEDDisplayMemWrite ['1', '2', '3'] zeroMem).mem 0 = DP ∧
     (LC4LEDDisplayMemWrite ['1', '2', '3'] zeroMem).mem 1 = Nat.land QUESTION DP ∧
     (LC4LEDDisplayMemWrite ['1', '2', '3'] zeroMem).mem 2 = QUESTION ∧
     (LC4LEDDisplayMemWrite ['1', '2', '3'] zeroMem).mem 3 = BLANK) :=
  ⟨by decide, claimC1_invalid_error_pattern ['1', '2', '3'] zeroMem (by decide)⟩

/-- Claim C2: for every input satisfying the validation rules, the encoder
raises no error (so the error pattern is never written) and fills the
4-byte buffer with exactly the spec-side encoding: each non-dot character,
left to right, maps through the fixed glyph table, and each dot
bitwise-ANDs the `DP` bit into the most recently written byte. -/
theorem claimC2_valid_encoding (digits : List Char) (mem0 : Int → Nat) (h : validInput digits) :
    (LC4LEDDisplayMemWrite digits mem0).error = false ∧
    (encodeSpec digits []).length = 4 ∧
    ∀ i : Nat, i < 4 →
      (LC4LEDDisplayMemWrite digits mem0).mem (i : Int) = (encodeSpec digits []).getD i 0 :=
  LC4_valid_eval digits mem0 h

/-- Witness for claim C2 at the input "1234". -/
theorem claimC2_witness :
    validInput ['1', '2', '3', '4'] ∧
    (LC4LEDDisplayMemWrite ['1', '2', '3', '4'] zeroMem).error = false ∧
    (LC4LEDDisplayMemWrite ['1', '2', '3', '4'] zeroMem).mem 0 =
      (encodeSpec ['1', '2', '3', '4'] []).getD 0 0 :=
  ⟨by decide, (claimC2_valid_encoding ['1', '2', '3', '4'] zeroMem (by decide)).1,
   (claimC2_valid_encoding ['1', '2', '3', '4'] zeroMem (by decide)).2.2 0 (by omega)⟩

/-- Claim C9: encoding a valid input is insensitive to the prior buffer
contents: starting from any two initial buffer states (in particular,
running the encoder twice in a row) yields byte-identical 4-byte output
buffers. -/
theorem claimC9_buffer_insensitive (digits : List Char) (m0 m1 : Int → Nat)
    (h : validInput digits) :
    ∀ i : Nat, i < 4 →
      (LC4LEDDisplayMemWrite digits m0).mem (i : Int) =
        (LC4LEDDisplayMemWrite digits m1).mem (i : Int) := by
  intro i hi
  rw [(LC4_valid_eval digits m0 h).2.2 i hi, (LC4_valid_eval digits m1 h).2.2 i hi]

/-- Witness for claim C9 at the input "1234" and two different initial
buffers. -/
theorem claimC9_witness :
    validInput ['1', '2', '3', '4'] ∧
    (LC4LEDDisplayMemWrite ['1', '2', '3', '4'] zeroMem).mem 0 =
      (LC4LEDDisplayMemWrite ['1', '2', '3', '4'] (fun _ => 7)).mem 0 :=
  ⟨by decide,
   claimC9_buffer_insensitive ['1', '2', '3', '4'] zeroMem (fun _ => 7) (by decide) 0 (by omega)⟩
